import Mathlib

/-!
# CHIP-8 CPU (`cpu/cpu.go`): a shallow embedding and its properties

Machine integers are natural numbers; every place where Go arithmetic on
`byte` or `uint16` can wrap carries an explicit `% 256` or `% 65536`.
The fixed-size arrays `v` and `stack` are functions on indices; an index
expression that can leave `0..15` at run time (only `stack[c.sp]`) is
checked, and a failed check ends the frame with status `panicked`.
-/

namespace Chip8

/-! ## Collaborators that live outside `cpu.go` -/

/-- Modelled from the spec: the Memory Store (package `memory`), a flat
byte-addressable store with bounds-agnostic read/write-at-offset operations. -/
structure Memory where
  cell : Nat → Nat

/-- Modelled from the spec: `read_byte_at(offset) -> byte` of the Memory Store. -/
def Memory.ReadByteAt (m : Memory) (off : Nat) : Nat := m.cell off

/-- Modelled from the spec: `write_byte_at(byte, offset)` of the Memory Store. -/
def Memory.WriteByteAt (m : Memory) (b : Nat) (off : Nat) : Memory :=
  ⟨fun a => if a = off then b else m.cell a⟩

/-- Modelled from the spec: `read_bytes_at(buffer, offset)` of the Memory Store;
the buffer of length `n` is filled from the cells `off, off+1, ..`. -/
def Memory.ReadBytesAt (m : Memory) (n : Nat) (off : Nat) : List Nat :=
  (List.range n).map (fun k => m.cell (off + k))

/-- Modelled from the spec: `write_bytes_at(bytes, offset)` of the Memory Store. -/
def Memory.WriteBytesAt (m : Memory) (b : List Nat) (off : Nat) : Memory :=
  ⟨fun a => if off ≤ a ∧ a < off + b.length then b.getD (a - off) 0 else m.cell a⟩

/-- Modelled from the spec: the Opcode Decoder (package `cpu/opcode`); an opcode
is the 16-bit word combined from two bytes in program order. -/
structure Opcode where
  word : Nat

/-- Modelled from the spec: the decoder's constructor, high byte first. -/
def NewOpcode (hi lo : Nat) : Opcode := ⟨(hi % 256) * 256 + lo % 256⟩

/-- Modelled from the spec: bits 12-15, the instruction family. -/
def Opcode.LeadByte (op : Opcode) : Nat := op.word / 4096 % 16

/-- Modelled from the spec: bits 8-11, a register index. -/
def Opcode.X (op : Opcode) : Nat := op.word / 256 % 16

/-- Modelled from the spec: bits 4-7, a register index. -/
def Opcode.Y (op : Opcode) : Nat := op.word / 16 % 16

/-- Modelled from the spec: bits 0-3, a 4-bit immediate. -/
def Opcode.N (op : Opcode) : Nat := op.word % 16

/-- Modelled from the spec: bits 0-7, an 8-bit immediate or sub-selector. -/
def Opcode.KK (op : Opcode) : Nat := op.word % 256

/-- Modelled from the spec: bits 0-11, a 12-bit address. -/
def Opcode.NNN (op : Opcode) : Nat := op.word % 4096

/-- One `DrawSprite(x, y, b)` call received by the display. -/
structure DrawCall where
  x : Nat
  y : Nat
  bytes : List Nat
deriving DecidableEq

/-- The display surface `d` of `Run`, as the log of the draw calls it received. -/
abbrev Display := List DrawCall

/-- The keyboard snapshot `kb map[byte]bool`; an absent key reads `false`. -/
abbrev Keyboard := Nat → Bool

/-! ## CPU state -/

/-- The `CPU` struct: `v` is `[16]byte`, `stack` is `[16]uint16`. -/
structure CPU where
  v : Nat → Nat
  sp : Nat
  pc : Nat
  i : Nat
  stack : Nat → Nat
  sound : Nat
  timer : Nat
  memory : Memory
  st : Nat
  dt : Nat

/-- Array store `a[i] = x`. -/
def setAt (a : Nat → Nat) (i x : Nat) : Nat → Nat :=
  fun j => if j = i then x else a j

/-- The values a Go `CPU` can hold: every field within its machine type. -/
def CPU.WF (c : CPU) : Prop :=
  (∀ j, j < 16 → c.v j < 256) ∧ c.sp < 256 ∧ c.pc < 65536 ∧ c.i < 65536 ∧
  (∀ j, j < 16 → c.stack j < 65536) ∧ c.st < 256 ∧ c.dt < 256

/-- The method `getOpcode`: the two bytes at `pc` and `pc+1` (a `uint16` sum). -/
def CPU.getOpcode (c : CPU) : Opcode :=
  NewOpcode (c.memory.ReadByteAt c.pc) (c.memory.ReadByteAt ((c.pc + 1) % 65536))

/-- The method `LoadRom`. -/
def CPU.LoadRom (c : CPU) (d : List Nat) : CPU :=
  { c with memory := c.memory.WriteBytesAt d 0x200 }

/-- The loop `for i, s := range sprites.Sprites` of `NewCPU`, from index `i` on. -/
def writeSprites : List (List Nat) → Nat → Memory → Memory
  | [], _, m => m
  | s :: rest, i, m => writeSprites rest (i + 1) (m.WriteBytesAt s (i + i * 4))

/-- The constructor `NewCPU`; the font table `sprites.Sprites` is a parameter. -/
def NewCPU (sprites : List (List Nat)) : CPU :=
  { v := fun _ => 0, sp := 0, pc := 0x200, i := 0, stack := fun _ => 0,
    sound := 0, timer := 0, memory := writeSprites sprites 0 ⟨fun _ => 0⟩,
    st := 0, dt := 0 }

/-! ## One iteration of the loop of `Run` -/

/-- How a frame iteration ends. -/
inductive Status where
  | running
  | returned
  | panicked
deriving DecidableEq, Repr

/-- Result of a frame: how it ended, the CPU and the display afterwards
(for `panicked`, as they were when the index check failed). -/
structure Outcome where
  status : Status
  cpu : CPU
  display : Display

/-- The delay timer's half of the timer step: `if c.dt > 0 { c.dt-- }`. -/
def tickDelay (c : CPU) : CPU :=
  if c.dt > 0 then { c with dt := c.dt - 1 } else c

/-- The sound timer's half of the timer step: `if c.st > 0 { c.st-- }`. -/
def tickSound (c : CPU) : CPU :=
  if c.st > 0 then { c with st := c.st - 1 } else c

/-- The timer step of a frame: delay timer first, then sound timer. -/
def tick (c : CPU) : CPU := tickSound (tickDelay c)

/-- The loop of `Fx65`: `for i := uint16(0); i <= x; i++`, with `fuel` checks
of the loop condition left. -/
def loadLoop (x : Nat) : Nat → Nat → CPU → CPU
  | 0, _, c => c
  | fuel + 1, i, c =>
    if i ≤ x then
      loadLoop x fuel ((i + 1) % 65536)
        { c with v := setAt c.v i (c.memory.ReadByteAt ((c.i + i) % 65536)) }
    else c

/-- `c.pc += 2` on a `uint16`. -/
def CPU.step2 (c : CPU) : CPU := { c with pc := (c.pc + 2) % 65536 }

/-- The inner `switch op.N()` of `case 0x8`. -/
def dispatch8 (op : Opcode) (c : CPU) (d : Display) : Outcome :=
  let n := op.N
  let x := op.X
  let y := op.Y
  if n = 0x0 then
    ⟨.running, ({ c with v := setAt c.v x (c.v y) }).step2, d⟩
  else if n = 0x1 then
    let r := c.v x ||| c.v y
    ⟨.running, ({ c with v := setAt c.v x r }).step2, d⟩
  else if n = 0x2 then
    let r := c.v x &&& c.v y
    ⟨.running, ({ c with v := setAt c.v x r }).step2, d⟩
  else if n = 0x3 then
    let r := c.v x ^^^ c.v y
    ⟨.running, ({ c with v := setAt c.v x r }).step2, d⟩
  else if n = 0x4 then
    let r := (c.v x + c.v y) % 65536
    let c1 := if r > 0xFF then { c with v := setAt c.v 0xF 1 }
              else { c with v := setAt c.v 0xF 0 }
    ⟨.running, ({ c1 with v := setAt c1.v x ((r ||| 0x00) % 256) }).step2, d⟩
  else if n = 0x5 then
    let c1 := if c.v x > c.v y then { c with v := setAt c.v 0xF 1 }
              else { c with v := setAt c.v 0xF 0 }
    ⟨.running,
      ({ c1 with v := setAt c1.v x ((c1.v x + 256 - c1.v y % 256) % 256) }).step2, d⟩
  else if n = 0x6 then
    let c1 := { c with v := setAt c.v 0xF (c.v x &&& 0x01) }
    ⟨.running, ({ c1 with v := setAt c1.v x (c1.v x / 2) }).step2, d⟩
  else ⟨.returned, c, d⟩

/-- The inner `switch op.KK()` of `case 0xE`; it has no `default` arm. -/
def dispatchE (kb : Keyboard) (op : Opcode) (c : CPU) (d : Display) : Outcome :=
  let kk := op.KK
  if kk = 0x00A1 then
    let c1 := if !(kb (c.v op.X)) then c.step2 else c
    ⟨.running, c1.step2, d⟩
  else if kk = 0x009E then
    let c1 := if kb (c.v op.X) then c.step2 else c
    ⟨.running, c1.step2, d⟩
  else ⟨.running, c, d⟩

/-- The inner `switch op.KK()` of `case 0xF`. -/
def dispatchF (op : Opcode) (c : CPU) (d : Display) : Outcome :=
  let kk := op.KK
  let x := op.X
  if kk = 0x0007 then
    ⟨.running, ({ c with v := setAt c.v x c.dt }).step2, d⟩
  else if kk = 0x0015 then
    ⟨.running, ({ c with dt := c.v x }).step2, d⟩
  else if kk = 0x0018 then
    ⟨.running, ({ c with st := c.v x }).step2, d⟩
  else if kk = 0x0029 then
    let v := (c.v x * 0x05) % 256
    ⟨.running, ({ c with i := v }).step2, d⟩
  else if kk = 0x0033 then
    let m1 := c.memory.WriteByteAt (c.v x / 100) c.i
    let m2 := m1.WriteByteAt ((c.v x / 10) % 10) ((c.i + 1) % 65536)
    let m3 := m2.WriteByteAt ((c.v x % 100) % 10) ((c.i + 2) % 65536)
    ⟨.running, ({ c with memory := m3 }).step2, d⟩
  else if kk = 0x0065 then
    ⟨.running, (loadLoop x 17 0 c).step2, d⟩
  else ⟨.returned, c, d⟩

/-- The `switch op.LeadByte()` of `Run`, with `r` the value of `rand.Intn(255)`. -/
def dispatch (kb : Keyboard) (r : Nat) (op : Opcode) (c : CPU) (d : Display) : Outcome :=
  let lead := op.LeadByte
  if lead = 0x0 then
    if c.sp < 16 then
      let c1 := { c with pc := c.stack c.sp }
      let c2 := { c1 with sp := (c1.sp + 255) % 256 }
      ⟨.running, c2.step2, d⟩
    else ⟨.panicked, c, d⟩
  else if lead = 0x1 then
    ⟨.running, { c with pc := op.NNN }, d⟩
  else if lead = 0x2 then
    let c1 := { c with sp := (c.sp + 1) % 256 }
    if c1.sp < 16 then
      let c2 := { c1 with stack := setAt c1.stack c1.sp c1.pc }
      ⟨.running, { c2 with pc := op.NNN }, d⟩
    else ⟨.panicked, c1, d⟩
  else if lead = 0x3 then
    let x := op.X
    let c1 := if c.v x = op.KK then c.step2 else c
    ⟨.running, c1.step2, d⟩
  else if lead = 0x4 then
    let x := op.X
    let c1 := if c.v x ≠ op.KK then c.step2 else c
    ⟨.running, c1.step2, d⟩
  else if lead = 0x6 then
    let x := op.X
    ⟨.running, ({ c with v := setAt c.v x op.KK }).step2, d⟩
  else if lead = 0x7 then
    let x := op.X
    ⟨.running, ({ c with v := setAt c.v x ((c.v x + op.KK) % 256) }).step2, d⟩
  else if lead = 0x8 then
    dispatch8 op c d
  else if lead = 0xA then
    ⟨.running, ({ c with i := op.NNN }).step2, d⟩
  else if lead = 0xC then
    let x := op.X
    ⟨.running, ({ c with v := setAt c.v x ((r % 256) &&& op.KK) }).step2, d⟩
  else if lead = 0xD then
    let x := c.v op.X
    let y := c.v op.Y
    let n := op.N
    let b := c.memory.ReadBytesAt n c.i
    ⟨.running, c.step2, d ++ [⟨x, y, b⟩]⟩
  else if lead = 0xE then
    dispatchE kb op c d
  else if lead = 0xF then
    dispatchF op c d
  else ⟨.returned, c, d⟩

/-- One pass through the `default:` branch of the `select` in `Run`: fetch,
timer step, dispatch. -/
def frame (kb : Keyboard) (r : Nat) (c : CPU) (d : Display) : Outcome :=
  let op := c.getOpcode
  dispatch kb r op (tick c) d

instance (c : CPU) : Decidable c.WF := by
  unfold CPU.WF; infer_instance

/-! ## Concrete states used by witnesses and counterexamples -/

/-- A freshly built CPU with an empty font table and `rom` loaded at `0x200`. -/
def romCPU (rom : List Nat) : CPU := (NewCPU []).LoadRom rom

/-- The keyboard with no key pressed. -/
def kb0 : Keyboard := fun _ => false

/-- A register file that is zero except `V[i] = a` and `V[j] = b`. -/
def regs2 (i a j b : Nat) : Nat → Nat := setAt (setAt (fun _ => 0) i a) j b

/-- State for `8xy4` with `x = 0`, `y = 1`, `V0 = 0xFF`, `V1 = 0x01`. -/
def addCarry : CPU := { romCPU [0x80, 0x14] with v := regs2 0 0xFF 1 0x01 }

/-- State for `8xy4` with `x = 0xF`, `y = 0`, `VF = 3`, `V0 = 4`. -/
def addIntoFlag : CPU := { romCPU [0x8F, 0x04] with v := regs2 0xF 3 0 4 }

/-- State for `8xy5` with `x = 0`, `y = 1`, `V0 = 0x05`, `V1 = 0x03`. -/
def subPlain : CPU := { romCPU [0x80, 0x15] with v := regs2 0 0x05 1 0x03 }

/-- State for `8xy5` with `x = 0`, `y = 0xF`, `V0 = 5`, `VF = 3`. -/
def subFromFlag : CPU := { romCPU [0x80, 0xF5] with v := regs2 0 5 0xF 3 }

/-- State for `8xy5` with `x = 0xF`, `y = 0`, `VF = 5`, `V0 = 3`. -/
def subIntoFlag : CPU := { romCPU [0x8F, 0x05] with v := regs2 0xF 5 0 3 }

/-- State for `8xy4` with `x = 0`, `y = 0xF`, `V0 = 5`, `VF = 3`: the registers of
`subFromFlag` under the sibling instruction. -/
def addFromFlag : CPU := { romCPU [0x80, 0xF4] with v := regs2 0 5 0xF 3 }

/-- State whose frame fetches `E000`: family `0xE` with `KK = 0x00`. -/
def keyUnknown : CPU := romCPU [0xE0, 0x00]

/-- State for `3xkk` with `x = 2`, `KK = 0x2A`, `V2 = 0x2A`; `pc = 0x200`. -/
def skipEq : CPU := { romCPU [0x32, 0x2A] with v := regs2 2 0x2A 0 0 }

/-- The keyboard with only key `7` pressed. -/
def kb7 : Keyboard := fun k => k == 7

/-- State for `Ex9E` with `x = 3`, `V3 = 7`; `pc = 0x200`. -/
def skipKey : CPU := { romCPU [0xE3, 0x9E] with v := regs2 3 7 0 0 }

/-- State for `2nnn` at `pc = 0x200` calling `0x204`, where a `00EE` sits. -/
def callRet : CPU := { romCPU [0x22, 0x04, 0x00, 0x00, 0x00, 0xEE] with sp := 3 }

/-- The index at which the frame starting in `c` accesses `c.stack`, if it
does: `stack[c.sp]` for family `0x0`, `stack[c.sp]` after `c.sp++` for `0x2`. -/
def stackAccess (c : CPU) : Option Nat :=
  if c.getOpcode.LeadByte = 0x0 then some c.sp
  else if c.getOpcode.LeadByte = 0x2 then some ((c.sp + 1) % 256)
  else none

/-- State for a return (`00EE`) with an empty stack, `sp = 0`. -/
def retEmpty : CPU := romCPU [0x00, 0xEE]

/-- State for a call (`2200`) with a full stack, `sp = 15`. -/
def callFull : CPU := { romCPU [0x22, 0x00] with sp := 15 }

/-- State for `Fx07` with `x = 1`, `dt = 9`, `st = 0`. -/
def timersRun : CPU := { romCPU [0xF1, 0x07] with dt := 9 }

/-- State for `Fx29` with `x = 0`, `V0 = 52`. -/
def fontWrap : CPU := { romCPU [0xF0, 0x29] with v := regs2 0 52 1 0 }

/-- State for `Fx29` with `x = 4`, `V4 = 0xA`. -/
def fontA : CPU := { romCPU [0xF4, 0x29] with v := regs2 4 0xA 1 0 }

/-- A font table of the right shape: glyph `g` is `[g, g+16, g+32, g+48, g+64]`. -/
def demoFont : List (List Nat) :=
  (List.range 16).map (fun g => [g, g + 16, g + 32, g + 48, g + 64])

/-- State for `Fx33` with `x = 2`, `V2 = 171`, `I = 0x300`. -/
def bcdState : CPU := { romCPU [0xF2, 0x33] with v := regs2 2 171 0 0, i := 0x300 }

/-- State for `8xy6` with `x = 3`, `V3 = 7`. -/
def shiftPlain : CPU := { romCPU [0x83, 0x06] with v := regs2 3 7 0 0 }

/-- State for `8xy6` with `x = 0xF`, `VF = 3`. -/
def shiftFlag : CPU := { romCPU [0x8F, 0x06] with v := regs2 0xF 3 0 0 }

/-- State for `7xkk` with `x = 1`, `KK = 0x02`, `V1 = 0xFF`, `VF = 9`. -/
def addImm : CPU := { romCPU [0x71, 0x02] with v := regs2 1 0xFF 0xF 9 }

/-- The addresses the loop of `Fx65` passes to `ReadByteAt`, in order: the
recursion of `loadLoop`, collecting the reads instead of the registers. -/
def loadReads (x : Nat) : Nat → Nat → CPU → List Nat
  | 0, _, _ => []
  | fuel + 1, i, c =>
    if i ≤ x then
      ((c.i + i) % 65536) ::
        loadReads x fuel ((i + 1) % 65536)
          { c with v := setAt c.v i (c.memory.ReadByteAt ((c.i + i) % 65536)) }
    else []

/-- A memory that holds the byte `(a + 5) mod 256` at every address `a`. -/
def memRamp : Memory := ⟨fun a => (a + 5) % 256⟩

/-- State for `Fx65` with `x = 2`, `I = 0x300`, `V3 = 9`, over `memRamp` with
the opcode `F265` at `0x200`. -/
def loadState : CPU :=
  { romCPU [] with memory := memRamp.WriteBytesAt [0xF2, 0x65] 0x200,
                   v := regs2 3 9 0 0, i := 0x300 }

/-- State for `Annn` with `NNN = 0x123`, at `sp = 2` with `stack[2] = 0x250`. -/
def setIndex : CPU :=
  { romCPU [0xA1, 0x23] with sp := 2, stack := setAt (fun _ => 0) 2 0x250 }

/-- State whose frame fetches `5120` (family `0x5`), with `V1 = 7`, `dt = 4`, `st = 0`. -/
def unknownFamily : CPU := { romCPU [0x51, 0x20] with v := regs2 1 7 0 0, dt := 4 }

/-- State for `Fx15` with `x = 1`, `V1 = 5`, followed at `0x202` by `F207`. -/
def timerSetThenRead : CPU := { romCPU [0xF1, 0x15, 0xF2, 0x07] with v := regs2 1 5 2 0 }

/-- State for `Dxyn` with `x = 1`, `y = 2`, `N = 3`, `V1 = 10`, `V2 = 20`,
`VF = 1`, `I = 0x300`, over `memRamp` with the opcode `D123` at `0x200`. -/
def drawState : CPU :=
  { romCPU [] with memory := memRamp.WriteBytesAt [0xD1, 0x23] 0x200,
                   v := setAt (regs2 1 10 2 20) 0xF 1, i := 0x300 }

/-- State for `Cxkk` with `x = 0`, `KK = 0xFF`. -/
def randomAll : CPU := romCPU [0xC0, 0xFF]

/-! # Theorems -/

/-! ## Decoding -/

theorem decode_nibbles (op : Opcode) (l x y n : Nat) (hl : l < 16) (hx : x < 16)
    (hy : y < 16) (hn : n < 16) (h : op.word = 4096 * l + 256 * x + 16 * y + n) :
    op.LeadByte = l ∧ op.X = x ∧ op.Y = y ∧ op.N = n ∧ op.KK = 16 * y + n ∧
      op.NNN = 256 * x + 16 * y + n := by
  simp only [Opcode.LeadByte, Opcode.X, Opcode.Y, Opcode.N, Opcode.KK, Opcode.NNN, h]
  omega

/-- Register indices produced by the decoder are within the register file. -/
theorem X_lt (op : Opcode) : op.X < 16 :=
  Nat.mod_lt _ (by decide)

theorem Y_lt (op : Opcode) : op.Y < 16 :=
  Nat.mod_lt _ (by decide)

/-! ## Facts about the timer step -/

theorem tick_v (c : CPU) : (tick c).v = c.v := by
  simp only [tick, tickSound, tickDelay]; split_ifs <;> rfl

theorem tick_sp (c : CPU) : (tick c).sp = c.sp := by
  simp only [tick, tickSound, tickDelay]; split_ifs <;> rfl

theorem tick_pc (c : CPU) : (tick c).pc = c.pc := by
  simp only [tick, tickSound, tickDelay]; split_ifs <;> rfl

theorem tick_i (c : CPU) : (tick c).i = c.i := by
  simp only [tick, tickSound, tickDelay]; split_ifs <;> rfl

theorem tick_stack (c : CPU) : (tick c).stack = c.stack := by
  simp only [tick, tickSound, tickDelay]; split_ifs <;> rfl

theorem tick_memory (c : CPU) : (tick c).memory = c.memory := by
  simp only [tick, tickSound, tickDelay]; split_ifs <;> rfl

theorem tick_dt (c : CPU) : (tick c).dt = c.dt - 1 := by
  simp only [tick, tickSound, tickDelay]; split_ifs <;> simp_all

theorem tick_st (c : CPU) : (tick c).st = c.st - 1 := by
  simp only [tick, tickSound, tickDelay]; split_ifs <;> simp_all

/-! ## The arithmetic instructions `8xy4` and `8xy5` -/

/-- The register file after a frame that executes `8xy4`. -/
theorem frame_add_v (kb : Keyboard) (r : Nat) (c : CPU) (d : Display)
    (hl : c.getOpcode.LeadByte = 8) (hn : c.getOpcode.N = 4) :
    (frame kb r c d).cpu.v =
      setAt (setAt c.v 0xF
          (if (c.v c.getOpcode.X + c.v c.getOpcode.Y) % 65536 > 0xFF then 1 else 0))
        c.getOpcode.X ((c.v c.getOpcode.X + c.v c.getOpcode.Y) % 65536 % 256) := by
  simp only [frame, dispatch, hl, hn, dispatch8, tick_v]
  simp
  split_ifs <;> simp [CPU.step2]

/-- The register file after a frame that executes `8xy5`: the flag is stored
first, and the subtraction reads the registers after that store. -/
theorem frame_sub_v (kb : Keyboard) (r : Nat) (c : CPU) (d : Display)
    (hl : c.getOpcode.LeadByte = 8) (hn : c.getOpcode.N = 5) :
    (frame kb r c d).cpu.v =
      setAt (setAt c.v 0xF (if c.v c.getOpcode.X > c.v c.getOpcode.Y then 1 else 0))
        c.getOpcode.X
        ((setAt c.v 0xF (if c.v c.getOpcode.X > c.v c.getOpcode.Y then 1 else 0)
              c.getOpcode.X + 256 -
            setAt c.v 0xF (if c.v c.getOpcode.X > c.v c.getOpcode.Y then 1 else 0)
              c.getOpcode.Y % 256) % 256) := by
  simp only [frame, dispatch, hl, hn, dispatch8, tick_v]
  simp
  split_ifs <;> simp [CPU.step2]

/-- C1 (amended): for every well-formed CPU state, every destination index
`x` in `0..14` and every `y` in `0..15`, a frame executing `8xy4` leaves
`V[0xF] = 1` if `Vx + Vy > 255` (values before the frame) and `0` otherwise. -/
theorem add_sets_carry_flag (kb : Keyboard) (r : Nat) (c : CPU) (d : Display) (x y : Nat)
    (hx : x < 15) (hy : y < 16) (hwf : c.WF)
    (hop : c.getOpcode.word = 0x8004 + 256 * x + 16 * y) :
    (frame kb r c d).cpu.v 0xF = if c.v x + c.v y > 255 then 1 else 0 := by
  obtain ⟨hl, hX, hY, hN, -, -⟩ :=
    decode_nibbles c.getOpcode 8 x y 4 (by omega) (by omega) hy (by omega) (by omega)
  have ha := hwf.1 x (by omega)
  have hb := hwf.1 y hy
  rw [frame_add_v kb r c d hl hN, hX, hY]
  have hne : (15 : Nat) ≠ x := by omega
  simp only [setAt, hne, if_false, if_true]
  rw [Nat.mod_eq_of_lt (by omega)]

/-- C1 witness: `V0 = 0xFF`, `V1 = 0x01`, opcode `8014` gives `VF = 1`. -/
theorem add_sets_carry_flag_witness :
    addCarry.WF ∧ addCarry.getOpcode.word = 0x8014 ∧
      (frame kb0 0 addCarry []).cpu.v 0xF = 1 :=
  ⟨by decide, by decide,
    add_sets_carry_flag kb0 0 addCarry [] 0 1 (by decide) (by decide) (by decide) (by decide)⟩

/-- C1 counterexample: with `x = 0xF` (opcode `8F04`, `VF = 3`, `V0 = 4`) the sum
`7` does not exceed 255, yet the frame leaves `V[0xF] = 7`, not `0`. -/
theorem add_flag_counterexample :
    addIntoFlag.WF ∧ addIntoFlag.getOpcode.word = 0x8004 + 256 * 0xF + 16 * 0 ∧
      ¬ (addIntoFlag.v 0xF + addIntoFlag.v 0 > 255) ∧
      (frame kb0 0 addIntoFlag []).cpu.v 0xF = 7 ∧
      (frame kb0 0 addIntoFlag []).cpu.v 0xF ≠
        (if addIntoFlag.v 0xF + addIntoFlag.v 0 > 255 then 1 else 0) := by
  decide

/-- C2: for every CPU state and all register indices `x`, `y` in `0..15`, a
frame executing `8xy4` leaves `Vx = (a + b) mod 256`, with `a = Vx` and
`b = Vy` before the frame. -/
theorem add_sets_dest (kb : Keyboard) (r : Nat) (c : CPU) (d : Display) (x y : Nat)
    (hx : x < 16) (hy : y < 16)
    (hop : c.getOpcode.word = 0x8004 + 256 * x + 16 * y) :
    (frame kb r c d).cpu.v x = (c.v x + c.v y) % 256 := by
  obtain ⟨hl, hX, hY, hN, -, -⟩ :=
    decode_nibbles c.getOpcode 8 x y 4 (by omega) hx hy (by omega) (by omega)
  rw [frame_add_v kb r c d hl hN, hX, hY]
  simp only [setAt, if_true]
  omega

/-- C2 witness: `V0 = 0xFF`, `V1 = 0x01`, opcode `8014` gives `V0 = 0x00`. -/
theorem add_sets_dest_witness :
    addCarry.getOpcode.word = 0x8014 ∧ (frame kb0 0 addCarry []).cpu.v 0 = 0 :=
  ⟨by decide, add_sets_dest kb0 0 addCarry [] 0 1 (by decide) (by decide) (by decide)⟩

/-- Where `8xy5` does leave the difference of the values before the frame: when
neither index is the flag register, and when `x = y` (also for `x = y = 0xF`). -/
theorem sub_dest_where_operands_survive (kb : Keyboard) (r : Nat) (c : CPU) (d : Display)
    (x y : Nat) (hx : x < 16) (hy : y < 16) (h : (x ≠ 15 ∧ y ≠ 15) ∨ x = y)
    (hop : c.getOpcode.word = 0x8005 + 256 * x + 16 * y) :
    ((frame kb r c d).cpu.v x : Int) = ((c.v x : Int) - (c.v y : Int)) % 256 := by
  obtain ⟨hl, hX, hY, hN, -, -⟩ :=
    decode_nibbles c.getOpcode 8 x y 5 (by omega) hx hy (by omega) (by omega)
  rw [frame_sub_v kb r c d hl hN, hX, hY]
  by_cases hxf : x = 15
  · have hyf : y = 15 := by omega
    subst hxf
    subst hyf
    simp [setAt]
  · have hyne : y ≠ 15 := by omega
    simp only [setAt, hxf, hyne, if_false, if_true]
    omega

/-- C3 (failing input): `8xy5` stores the flag before it reads its operands.
With `y = 0xF` (opcode `80F5`, `V0 = 5`, `VF = 3`) the frame leaves `V0 = 4`, while
`(5 − 3) mod 256 = 2`; with `x = 0xF` (opcode `8F05`, `VF = 5`, `V0 = 3`) it leaves
`VF = 254`, while `(5 − 3) mod 256 = 2`. The sibling `8xy4` reads its operands
first: on the registers of the first input (opcode `80F4`) it leaves
`V0 = (5 + 3) mod 256 = 8`. -/
theorem sub_reads_operands_after_flag_store :
    subFromFlag.WF ∧ subFromFlag.getOpcode.word = 0x8005 + 256 * 0 + 16 * 0xF ∧
      (frame kb0 0 subFromFlag []).cpu.v 0 = 4 ∧
      ((frame kb0 0 subFromFlag []).cpu.v 0 : Int) ≠
        ((subFromFlag.v 0 : Int) - (subFromFlag.v 0xF : Int)) % 256 ∧
      subIntoFlag.WF ∧ subIntoFlag.getOpcode.word = 0x8005 + 256 * 0xF + 16 * 0 ∧
      (frame kb0 0 subIntoFlag []).cpu.v 0xF = 254 ∧
      ((frame kb0 0 subIntoFlag []).cpu.v 0xF : Int) ≠
        ((subIntoFlag.v 0xF : Int) - (subIntoFlag.v 0 : Int)) % 256 ∧
      addFromFlag.v = subFromFlag.v ∧
      addFromFlag.getOpcode.word = 0x8004 + 256 * 0 + 16 * 0xF ∧
      (frame kb0 0 addFromFlag []).cpu.v 0 = (addFromFlag.v 0 + addFromFlag.v 0xF) % 256 := by
  refine ⟨by decide, by decide, by decide, by decide, by decide, by decide, by decide,
    by decide, rfl, by decide, by decide⟩

/-- C4 (amended): for every CPU state, every destination index `x` in `0..14`
and every `y` in `0..15`, a frame executing `8xy5` leaves `V[0xF] = 1` if
`Vx > Vy` (values before the frame) and `0` otherwise. -/
theorem sub_sets_flag (kb : Keyboard) (r : Nat) (c : CPU) (d : Display) (x y : Nat)
    (hx : x < 15) (hy : y < 16)
    (hop : c.getOpcode.word = 0x8005 + 256 * x + 16 * y) :
    (frame kb r c d).cpu.v 0xF = if c.v x > c.v y then 1 else 0 := by
  obtain ⟨hl, hX, hY, hN, -, -⟩ :=
    decode_nibbles c.getOpcode 8 x y 5 (by omega) (by omega) hy (by omega) (by omega)
  rw [frame_sub_v kb r c d hl hN, hX, hY]
  have hne : (15 : Nat) ≠ x := by omega
  simp only [setAt, hne, if_false, if_true]

/-- C4 witness: `V0 = 0x05`, `V1 = 0x03`, opcode `8015` gives `VF = 1`. -/
theorem sub_sets_flag_witness :
    subPlain.getOpcode.word = 0x8015 ∧ (frame kb0 0 subPlain []).cpu.v 0xF = 1 :=
  ⟨by decide, sub_sets_flag kb0 0 subPlain [] 0 1 (by decide) (by decide) (by decide)⟩

/-- C4 counterexample: with `x = 0xF` (opcode `8F05`, `VF = 5`, `V0 = 3`) we have
`Vx > Vy`, yet the frame leaves `V[0xF] = 254`, not `1`. -/
theorem sub_flag_counterexample :
    subIntoFlag.WF ∧ subIntoFlag.getOpcode.word = 0x8005 + 256 * 0xF + 16 * 0 ∧
      subIntoFlag.v 0xF > subIntoFlag.v 0 ∧
      (frame kb0 0 subIntoFlag []).cpu.v 0xF = 254 ∧
      (frame kb0 0 subIntoFlag []).cpu.v 0xF ≠
        (if subIntoFlag.v 0xF > subIntoFlag.v 0 then 1 else 0) := by
  decide

theorem decode_xkk (op : Opcode) (l x kk : Nat) (hl : l < 16) (hx : x < 16)
    (hkk : kk < 256) (h : op.word = 4096 * l + 256 * x + kk) :
    op.LeadByte = l ∧ op.X = x ∧ op.KK = kk := by
  simp only [Opcode.LeadByte, Opcode.X, Opcode.KK, h]
  omega

theorem decode_nnn (op : Opcode) (l nnn : Nat) (hl : l < 16) (hnnn : nnn < 4096)
    (h : op.word = 4096 * l + nnn) :
    op.LeadByte = l ∧ op.NNN = nnn := by
  simp only [Opcode.LeadByte, Opcode.NNN, h]
  omega

/-! ## Unsupported instructions -/

/-- The arms that end the run: the outer `default` (families `0x5`, `0x9`,
`0xB`) and the `default` arms of the switches of families `0x8` and `0xF`. -/
theorem default_arms_return (kb : Keyboard) (r : Nat) (c : CPU) (d : Display)
    (h : c.getOpcode.LeadByte = 0x5 ∨ c.getOpcode.LeadByte = 0x9 ∨
      c.getOpcode.LeadByte = 0xB ∨
      (c.getOpcode.LeadByte = 0x8 ∧ 6 < c.getOpcode.N) ∨
      (c.getOpcode.LeadByte = 0xF ∧ c.getOpcode.KK ≠ 0x07 ∧ c.getOpcode.KK ≠ 0x15 ∧
        c.getOpcode.KK ≠ 0x18 ∧ c.getOpcode.KK ≠ 0x29 ∧ c.getOpcode.KK ≠ 0x33 ∧
        c.getOpcode.KK ≠ 0x65)) :
    (frame kb r c d).status = .returned := by
  rcases h with h | h | h | ⟨h, hn⟩ | ⟨h, h1, h2, h3, h4, h5, h6⟩
  · simp [frame, dispatch, h]
  · simp [frame, dispatch, h]
  · simp [frame, dispatch, h]
  · have e0 : c.getOpcode.N ≠ 0 := by omega
    have e1 : c.getOpcode.N ≠ 1 := by omega
    have e2 : c.getOpcode.N ≠ 2 := by omega
    have e3 : c.getOpcode.N ≠ 3 := by omega
    have e4 : c.getOpcode.N ≠ 4 := by omega
    have e5 : c.getOpcode.N ≠ 5 := by omega
    have e6 : c.getOpcode.N ≠ 6 := by omega
    simp [frame, dispatch, h, dispatch8, e0, e1, e2, e3, e4, e5, e6]
  · simp [frame, dispatch, h, dispatchF, h1, h2, h3, h4, h5, h6]

/-- The switch of family `0xE` has no `default` arm: with `KK` other than `0x9E`
and `0xA1` the frame falls out of the switch and the loop goes on, `pc` unchanged. -/
theorem key_family_falls_through (kb : Keyboard) (r : Nat) (c : CPU) (d : Display)
    (hl : c.getOpcode.LeadByte = 0xE) (h1 : c.getOpcode.KK ≠ 0x9E)
    (h2 : c.getOpcode.KK ≠ 0xA1) :
    (frame kb r c d).status = .running ∧ (frame kb r c d).cpu.pc = c.pc := by
  simp [frame, dispatch, hl, dispatchE, h1, h2, tick_pc]

/-- C5 (failing input): fetching `E000` (family `0xE`, `KK` neither `0x9E` nor
`0xA1`) does not end the run: the frame ends with status `running` and the
same `pc`, so the next iteration fetches the same opcode again. -/
theorem unsupported_key_opcode_keeps_running :
    keyUnknown.getOpcode.word = 0xE000 ∧ keyUnknown.getOpcode.LeadByte = 0xE ∧
      keyUnknown.getOpcode.KK ≠ 0x9E ∧ keyUnknown.getOpcode.KK ≠ 0xA1 ∧
      (frame kb0 0 keyUnknown []).status = .running ∧
      (frame kb0 0 keyUnknown []).status ≠ .returned ∧
      (frame kb0 0 keyUnknown []).cpu.pc = keyUnknown.pc ∧
      (frame kb0 0 (frame kb0 0 keyUnknown []).cpu []).status = .running := by
  decide

/-! ## Skip instructions -/

/-- C6: for every CPU state, register index `x`, immediate `KK` and keyboard
snapshot, a frame executing a skip instruction (`3xkk` with condition
`Vx == KK`, `4xkk` with `Vx != KK`, `Ex9E` with key `Vx` pressed, `ExA1` with key
`Vx` not pressed) sets `pc` to `(pc + 4) mod 2^16` when the condition holds and
to `(pc + 2) mod 2^16` when it does not. -/
theorem skip_sets_pc (kb : Keyboard) (r : Nat) (c : CPU) (d : Display) (x kk : Nat)
    (hx : x < 16) (hkk : kk < 256) :
    (c.getOpcode.word = 0x3000 + 256 * x + kk →
      (frame kb r c d).cpu.pc =
        if c.v x = kk then (c.pc + 4) % 65536 else (c.pc + 2) % 65536) ∧
    (c.getOpcode.word = 0x4000 + 256 * x + kk →
      (frame kb r c d).cpu.pc =
        if c.v x ≠ kk then (c.pc + 4) % 65536 else (c.pc + 2) % 65536) ∧
    (c.getOpcode.word = 0xE09E + 256 * x →
      (frame kb r c d).cpu.pc =
        if kb (c.v x) = true then (c.pc + 4) % 65536 else (c.pc + 2) % 65536) ∧
    (c.getOpcode.word = 0xE0A1 + 256 * x →
      (frame kb r c d).cpu.pc =
        if kb (c.v x) = false then (c.pc + 4) % 65536 else (c.pc + 2) % 65536) := by
  refine ⟨fun hop => ?_, fun hop => ?_, fun hop => ?_, fun hop => ?_⟩
  · obtain ⟨hl, hX, hK⟩ := decode_xkk c.getOpcode 3 x kk (by omega) hx hkk (by omega)
    simp only [frame, dispatch, hl, hX, hK, tick_v]
    simp
    split_ifs <;> simp [CPU.step2, tick_pc]
  · obtain ⟨hl, hX, hK⟩ := decode_xkk c.getOpcode 4 x kk (by omega) hx hkk (by omega)
    simp only [frame, dispatch, hl, hX, hK, tick_v]
    simp
    split_ifs <;> simp [CPU.step2, tick_pc]
  · obtain ⟨hl, hX, hK⟩ := decode_xkk c.getOpcode 0xE x 0x9E (by omega) hx (by omega) (by omega)
    simp only [frame, dispatch, hl, hX, hK, dispatchE, tick_v]
    simp
    split_ifs <;> simp [CPU.step2, tick_pc]
  · obtain ⟨hl, hX, hK⟩ := decode_xkk c.getOpcode 0xE x 0xA1 (by omega) hx (by omega) (by omega)
    simp only [frame, dispatch, hl, hX, hK, dispatchE, tick_v]
    simp
    split_ifs <;> simp_all [CPU.step2, tick_pc]

/-- C6 witness: `3xkk` with `V2 = KK` moves `pc` from `0x200` to `0x204`, and
`Ex9E` with key `V3 = 7` pressed does the same. -/
theorem skip_sets_pc_witness :
    (skipEq.getOpcode.word = 0x3000 + 256 * 2 + 0x2A ∧
      (frame kb0 0 skipEq []).cpu.pc = 0x204) ∧
    (skipKey.getOpcode.word = 0xE09E + 256 * 3 ∧
      (frame kb7 0 skipKey []).cpu.pc = 0x204) :=
  ⟨⟨by decide, (skip_sets_pc kb0 0 skipEq [] 2 0x2A (by decide) (by decide)).1 (by decide)⟩,
   ⟨by decide,
    (skip_sets_pc kb7 0 skipKey [] 3 0 (by decide) (by decide)).2.2.1 (by decide)⟩⟩

/-! ## Call and return -/

/-- C7: for every CPU state with `sp <= 14` and every 12-bit address `A`, a
frame executing the call `2A` followed by a frame that fetches an opcode of
family `0x0` leaves `pc = (p + 2) mod 2^16`, `p` the `pc` before the call, and
the stack pointer at its value before the call; both frames complete. -/
theorem call_return_roundtrip (kb kb2 : Keyboard) (r r2 : Nat) (c : CPU) (d : Display)
    (A : Nat) (hA : A < 4096) (hsp : c.sp ≤ 14)
    (hcall : c.getOpcode.word = 0x2000 + A)
    (hret : (frame kb r c d).cpu.getOpcode.LeadByte = 0x0) :
    (frame kb r c d).status = .running ∧
    (frame kb r c d).cpu.pc = A ∧
    (frame kb2 r2 (frame kb r c d).cpu (frame kb r c d).display).status = .running ∧
    (frame kb2 r2 (frame kb r c d).cpu (frame kb r c d).display).cpu.pc
      = (c.pc + 2) % 65536 ∧
    (frame kb2 r2 (frame kb r c d).cpu (frame kb r c d).display).cpu.sp = c.sp := by
  obtain ⟨hl, hN⟩ := decode_nnn c.getOpcode 2 A (by omega) hA (by omega)
  have hsp1 : (c.sp + 1) % 256 < 16 := by omega
  have hf : frame kb r c d =
      ⟨.running, { tick c with sp := (c.sp + 1) % 256,
                               stack := setAt c.stack ((c.sp + 1) % 256) c.pc,
                               pc := A }, d⟩ := by
    simp [frame, dispatch, hl, hN, tick_sp, tick_pc, tick_stack, hsp1]
  rw [hf] at hret ⊢
  refine ⟨rfl, rfl, ?_, ?_, ?_⟩
  all_goals
    simp [frame, dispatch, hret, tick_sp, tick_pc, tick_stack, hsp1, setAt, CPU.step2]
  omega

/-- C7 witness: from `pc = 0x200`, `sp = 3`, the call `2204` and the `00EE` at
`0x204` give `pc = 0x202` and `sp = 3`. -/
theorem call_return_roundtrip_witness :
    (frame kb0 0 (frame kb0 0 callRet []).cpu (frame kb0 0 callRet []).display).cpu.pc
      = 0x202 ∧
    (frame kb0 0 (frame kb0 0 callRet []).cpu (frame kb0 0 callRet []).display).cpu.sp
      = 3 :=
  (call_return_roundtrip kb0 kb0 0 0 callRet [] 0x204 (by decide) (by decide) (by decide)
    (by decide)).2.2.2

/-! ## The stack pointer -/

/-- The loop of `Fx65` writes registers only. -/
theorem loadLoop_fields (x fuel i : Nat) (c : CPU) :
    (loadLoop x fuel i c).sp = c.sp ∧ (loadLoop x fuel i c).pc = c.pc ∧
    (loadLoop x fuel i c).i = c.i ∧ (loadLoop x fuel i c).stack = c.stack ∧
    (loadLoop x fuel i c).memory = c.memory ∧ (loadLoop x fuel i c).st = c.st ∧
    (loadLoop x fuel i c).dt = c.dt := by
  induction fuel generalizing i c with
  | zero => simp [loadLoop]
  | succ n ih =>
    simp only [loadLoop]
    split_ifs
    · simpa using ih ((i + 1) % 65536) _
    · simp

/-- Family `0x8` touches neither the stack nor the timers and never panics. -/
theorem dispatch8_fields (op : Opcode) (c : CPU) (d : Display) :
    (dispatch8 op c d).status ≠ .panicked ∧ (dispatch8 op c d).cpu.sp = c.sp ∧
    (dispatch8 op c d).cpu.stack = c.stack ∧ (dispatch8 op c d).cpu.dt = c.dt ∧
    (dispatch8 op c d).cpu.st = c.st := by
  simp only [dispatch8]
  split_ifs <;> simp [CPU.step2]

/-- Family `0xE` touches neither the stack nor the timers and never panics. -/
theorem dispatchE_fields (kb : Keyboard) (op : Opcode) (c : CPU) (d : Display) :
    (dispatchE kb op c d).status ≠ .panicked ∧ (dispatchE kb op c d).cpu.sp = c.sp ∧
    (dispatchE kb op c d).cpu.stack = c.stack ∧ (dispatchE kb op c d).cpu.dt = c.dt ∧
    (dispatchE kb op c d).cpu.st = c.st := by
  simp only [dispatchE]
  split_ifs <;> simp [CPU.step2]

/-- Family `0xF` does not touch the stack and never panics; it writes the delay
timer only in `Fx15` and the sound timer only in `Fx18`. -/
theorem dispatchF_fields (op : Opcode) (c : CPU) (d : Display) :
    (dispatchF op c d).status ≠ .panicked ∧ (dispatchF op c d).cpu.sp = c.sp ∧
    (dispatchF op c d).cpu.stack = c.stack ∧
    (op.KK ≠ 0x15 → (dispatchF op c d).cpu.dt = c.dt) ∧
    (op.KK ≠ 0x18 → (dispatchF op c d).cpu.st = c.st) := by
  simp only [dispatchF]
  split_ifs <;> simp_all [CPU.step2, loadLoop_fields]

theorem LeadByte_lt (op : Opcode) : op.LeadByte < 16 :=
  Nat.mod_lt _ (by decide)

/-- A frame changes `sp` only in families `0x0` and `0x2`. -/
theorem frame_sp_of_no_stack_op (kb : Keyboard) (r : Nat) (c : CPU) (d : Display)
    (h0 : c.getOpcode.LeadByte ≠ 0x0) (h2 : c.getOpcode.LeadByte ≠ 0x2) :
    (frame kb r c d).status ≠ .panicked ∧ (frame kb r c d).cpu.sp = c.sp := by
  have hlt := LeadByte_lt c.getOpcode
  unfold frame
  generalize c.getOpcode = op at h0 h2 hlt ⊢
  generalize hl : op.LeadByte = l at h0 h2 hlt
  interval_cases l <;>
    simp [dispatch, hl, CPU.step2, tick_sp, dispatch8_fields, dispatchE_fields,
      dispatchF_fields] at h0 h2 ⊢ <;>
    split_ifs <;> simp [tick_sp]

/-- The frame ends in `panicked` exactly when its stack access is out of range. -/
theorem frame_panicked_iff (kb : Keyboard) (r : Nat) (c : CPU) (d : Display) :
    (frame kb r c d).status = .panicked ↔ ∃ i, stackAccess c = some i ∧ 16 ≤ i := by
  by_cases h0 : c.getOpcode.LeadByte = 0x0
  · by_cases hs : c.sp < 16 <;> simp [frame, dispatch, stackAccess, h0, tick_sp, hs]
    omega
  · by_cases h2 : c.getOpcode.LeadByte = 0x2
    · by_cases hs : (c.sp + 1) % 256 < 16 <;>
        simp [frame, dispatch, stackAccess, h2, tick_sp, hs]
      omega
    · have := (frame_sp_of_no_stack_op kb r c d h0 h2).1
      simp [stackAccess, h0, h2, this]

/-- C8 (amended): for every CPU state with `sp` in `0..15` and every fetched
opcode, except a return of family `0x0` fetched at `sp = 0` and a call `2nnn`
fetched at `sp = 15`, the frame does not panic, its stack access (if any) uses
an index in `0..15`, and the stack pointer is again in `0..15` afterwards. -/
theorem stack_pointer_stays_in_range (kb : Keyboard) (r : Nat) (c : CPU) (d : Display)
    (hsp : c.sp ≤ 15)
    (hret : ¬ (c.getOpcode.LeadByte = 0x0 ∧ c.sp = 0))
    (hcall : ¬ (c.getOpcode.LeadByte = 0x2 ∧ c.sp = 15)) :
    (frame kb r c d).status ≠ .panicked ∧
    (∀ i, stackAccess c = some i → i ≤ 15) ∧
    (frame kb r c d).cpu.sp ≤ 15 := by
  by_cases h0 : c.getOpcode.LeadByte = 0x0
  · have hpos : c.sp ≠ 0 := fun h => hret ⟨h0, h⟩
    have hlt : c.sp < 16 := by omega
    simp [frame, dispatch, stackAccess, h0, tick_sp, hlt, CPU.step2]
    omega
  · by_cases h2 : c.getOpcode.LeadByte = 0x2
    · have hne : c.sp ≠ 15 := fun h => hcall ⟨h2, h⟩
      have hlt : (c.sp + 1) % 256 < 16 := by omega
      simp [frame, dispatch, stackAccess, h2, tick_sp, hlt]
      omega
    · obtain ⟨hp, hs⟩ := frame_sp_of_no_stack_op kb r c d h0 h2
      refine ⟨hp, ?_, by omega⟩
      simp [stackAccess, h0, h2]

/-- C8 witness: the call `2204` at `sp = 3` completes with `sp = 4`. -/
theorem stack_pointer_stays_in_range_witness :
    callRet.sp ≤ 15 ∧ (frame kb0 0 callRet []).status ≠ .panicked ∧
      (∀ i, stackAccess callRet = some i → i ≤ 15) ∧
      (frame kb0 0 callRet []).cpu.sp ≤ 15 :=
  ⟨by decide,
    stack_pointer_stays_in_range kb0 0 callRet [] (by decide) (by decide) (by decide)⟩

/-- C8 counterexample: a return fetched at `sp = 0` leaves `sp = 255`, and a call
fetched at `sp = 15` accesses `stack[16]` and panics. -/
theorem stack_pointer_counterexample :
    (retEmpty.sp ≤ 15 ∧ retEmpty.getOpcode.LeadByte = 0x0 ∧
      (frame kb0 0 retEmpty []).cpu.sp = 255 ∧ ¬ (frame kb0 0 retEmpty []).cpu.sp ≤ 15) ∧
    (callFull.sp ≤ 15 ∧ callFull.getOpcode.LeadByte = 0x2 ∧
      stackAccess callFull = some 16 ∧ (frame kb0 0 callFull []).status = .panicked ∧
      ¬ (frame kb0 0 callFull []).cpu.sp ≤ 15) := by
  decide

/-! ## Timers -/

/-- A frame leaves the delay timer as the timer step set it, unless it runs `Fx15`. -/
theorem frame_dt (kb : Keyboard) (r : Nat) (c : CPU) (d : Display)
    (h : ¬ (c.getOpcode.LeadByte = 0xF ∧ c.getOpcode.KK = 0x15)) :
    (frame kb r c d).cpu.dt = (tick c).dt := by
  have hlt := LeadByte_lt c.getOpcode
  unfold frame
  generalize c.getOpcode = op at h hlt ⊢
  generalize hl : op.LeadByte = l at h hlt
  interval_cases l
  case «15» =>
    simp only [dispatch, hl]
    simp
    exact (dispatchF_fields _ _ _).2.2.2.1 (fun hk => h ⟨rfl, hk⟩)
  all_goals
    simp [dispatch, hl, CPU.step2, dispatch8_fields, dispatchE_fields] <;>
    split_ifs <;> simp

/-- A frame leaves the sound timer as the timer step set it, unless it runs `Fx18`. -/
theorem frame_st (kb : Keyboard) (r : Nat) (c : CPU) (d : Display)
    (h : ¬ (c.getOpcode.LeadByte = 0xF ∧ c.getOpcode.KK = 0x18)) :
    (frame kb r c d).cpu.st = (tick c).st := by
  have hlt := LeadByte_lt c.getOpcode
  unfold frame
  generalize c.getOpcode = op at h hlt ⊢
  generalize hl : op.LeadByte = l at h hlt
  interval_cases l
  case «15» =>
    simp only [dispatch, hl]
    simp
    exact (dispatchF_fields _ _ _).2.2.2.2 (fun hk => h ⟨rfl, hk⟩)
  all_goals
    simp [dispatch, hl, CPU.step2, dispatch8_fields, dispatchE_fields] <;>
    split_ifs <;> simp

/-- C9: in every frame, whatever the fetched opcode, the timer step sets the
delay timer to `dt − 1` when `dt > 0` and leaves it `0` when `dt = 0`, and the
same for the sound timer (so neither grows or wraps); at the end of the frame
the delay timer holds that value unless the instruction is `Fx15`, and the
sound timer holds it unless the instruction is `Fx18`. -/
theorem timers_decrement (kb : Keyboard) (r : Nat) (c : CPU) (d : Display) :
    (tick c).dt = (if c.dt > 0 then c.dt - 1 else 0) ∧
    (tick c).st = (if c.st > 0 then c.st - 1 else 0) ∧
    (tick c).dt ≤ c.dt ∧ (tick c).st ≤ c.st ∧
    (¬ (c.getOpcode.LeadByte = 0xF ∧ c.getOpcode.KK = 0x15) →
      (frame kb r c d).cpu.dt = (if c.dt > 0 then c.dt - 1 else 0)) ∧
    (¬ (c.getOpcode.LeadByte = 0xF ∧ c.getOpcode.KK = 0x18) →
      (frame kb r c d).cpu.st = (if c.st > 0 then c.st - 1 else 0)) := by
  have hd : (tick c).dt = (if c.dt > 0 then c.dt - 1 else 0) := by
    rw [tick_dt]; split_ifs <;> omega
  have hs : (tick c).st = (if c.st > 0 then c.st - 1 else 0) := by
    rw [tick_st]; split_ifs <;> omega
  refine ⟨hd, hs, ?_, ?_, fun h => ?_, fun h => ?_⟩
  · rw [tick_dt]; omega
  · rw [tick_st]; omega
  · rw [frame_dt kb r c d h, hd]
  · rw [frame_st kb r c d h, hs]

/-- C9 witness: with `dt = 9`, `st = 0` and opcode `F107`, the frame ends with
`dt = 8` and `st = 0`. -/
theorem timers_decrement_witness :
    (frame kb0 0 timersRun []).cpu.dt = 8 ∧ (frame kb0 0 timersRun []).cpu.st = 0 :=
  ⟨(timers_decrement kb0 0 timersRun []).2.2.2.2.1 (by decide),
   (timers_decrement kb0 0 timersRun []).2.2.2.2.2 (by decide)⟩

/-! ## The font instruction `Fx29` and the font table -/

/-- Writing the sprites that follow index `i` leaves the cells below `5 * i` alone. -/
theorem writeSprites_below (l : List (List Nat)) (i : Nat) (m : Memory) (a : Nat)
    (ha : a < 5 * i) : (writeSprites l i m).cell a = m.cell a := by
  induction l generalizing i m with
  | nil => rfl
  | cons s rest ih =>
    simp only [writeSprites]
    rw [ih (i + 1) _ (by omega)]
    simp only [Memory.WriteBytesAt]
    rw [if_neg (by omega)]

/-- `NewCPU`'s loop stores byte `k` of the `g`-th remaining glyph at `(i + g) * 5 + k`. -/
theorem writeSprites_cell (l : List (List Nat)) (i : Nat) (m : Memory) (g k : Nat)
    (hs : ∀ s ∈ l, s.length = 5) (hg : g < l.length) (hk : k < 5) :
    (writeSprites l i m).cell ((i + g) * 5 + k) = (l.getD g []).getD k 0 := by
  induction l generalizing i m g with
  | nil => simp at hg
  | cons s rest ih =>
    simp only [writeSprites]
    cases g with
    | zero =>
      have hlen : s.length = 5 := hs s (List.mem_cons_self _ _)
      rw [writeSprites_below rest (i + 1) _ _ (by omega)]
      simp only [Memory.WriteBytesAt, hlen]
      rw [if_pos (by omega)]
      have e : (i + 0) * 5 + k - (i + i * 4) = k := by omega
      rw [e]
      simp
    | succ g =>
      have h := ih (i + 1) (m.WriteBytesAt s (i + i * 4)) g
        (fun t ht => hs t (List.mem_cons_of_mem _ ht)) (by simpa using hg)
      have e : (i + (g + 1)) * 5 + k = (i + 1 + g) * 5 + k := by omega
      rw [e, h]
      simp

/-- The index register after a frame that executes `Fx29`. -/
theorem frame_font_i (kb : Keyboard) (r : Nat) (c : CPU) (d : Display)
    (hl : c.getOpcode.LeadByte = 0xF) (hk : c.getOpcode.KK = 0x29) :
    (frame kb r c d).cpu.i = (c.v c.getOpcode.X * 5) % 256 := by
  simp only [frame, dispatch, hl, hk, dispatchF, tick_v]
  simp [CPU.step2]

/-- C10 (amended): for every CPU state and register index `x`, `Fx29` sets `I`
to `(Vx * 5) mod 256` (the product is taken on bytes), which is the integer
product `Vx * 5` whenever `Vx <= 51`; for `Vx = g` in `0..15` this is `g * 5`,
the address at which `NewCPU` stored glyph `g` of a 16-glyph, 5-byte font
table (byte `k` of the glyph at `g * 5 + k`). -/
theorem font_sets_index (kb : Keyboard) (r : Nat) (c : CPU) (d : Display) (x : Nat)
    (sprites : List (List Nat)) (g k : Nat)
    (hx : x < 16) (hop : c.getOpcode.word = 0xF029 + 256 * x)
    (hlen : sprites.length = 16) (hs : ∀ s ∈ sprites, s.length = 5)
    (hg : g < 16) (hk : k < 5) :
    (frame kb r c d).cpu.i = (c.v x * 5) % 256 ∧
    (c.v x ≤ 51 → (frame kb r c d).cpu.i = c.v x * 5) ∧
    (c.v x = g →
      (frame kb r c d).cpu.i = g * 5 ∧
      (NewCPU sprites).memory.cell ((frame kb r c d).cpu.i + k)
        = (sprites.getD g []).getD k 0) := by
  obtain ⟨hl, hX, hK⟩ :=
    decode_xkk c.getOpcode 0xF x 0x29 (by omega) hx (by omega) (by omega)
  have hi := frame_font_i kb r c d hl hK
  rw [hX] at hi
  refine ⟨hi, fun h => ?_, fun h => ?_⟩
  · rw [hi]; omega
  · have hig : (frame kb r c d).cpu.i = g * 5 := by rw [hi, h]; omega
    refine ⟨hig, ?_⟩
    rw [hig]
    have := writeSprites_cell sprites 0 ⟨fun _ => 0⟩ g k hs (by omega) hk
    simpa [NewCPU] using this

/-- C10 witness: `F429` with `V4 = 0xA` sets `I = 50`, where `NewCPU demoFont`
holds glyph `0xA`; its byte `2` is `0xA + 32`. -/
theorem font_sets_index_witness :
    (frame kb0 0 fontA []).cpu.i = 50 ∧
      (NewCPU demoFont).memory.cell ((frame kb0 0 fontA []).cpu.i + 2) = 0xA + 32 :=
  (font_sets_index kb0 0 fontA [] 4 demoFont 0xA 2 (by decide) (by decide) (by decide)
    (by decide) (by decide) (by decide)).2.2 (by decide)

/-- C10 counterexample: `F029` with `V0 = 52` sets `I = 4`, not `52 * 5 = 260`. -/
theorem font_index_counterexample :
    fontWrap.WF ∧ fontWrap.getOpcode.word = 0xF029 + 256 * 0 ∧ fontWrap.v 0 = 52 ∧
      (frame kb0 0 fontWrap []).cpu.i = 4 ∧
      (frame kb0 0 fontWrap []).cpu.i ≠ fontWrap.v 0 * 5 := by
  decide

/-! ## The BCD instruction `Fx33` -/

/-- Registers, index register and memory after a frame that executes `Fx33`. -/
theorem frame_bcd (kb : Keyboard) (r : Nat) (c : CPU) (d : Display)
    (hl : c.getOpcode.LeadByte = 0xF) (hk : c.getOpcode.KK = 0x33) :
    (frame kb r c d).cpu.v = c.v ∧ (frame kb r c d).cpu.i = c.i ∧
    (frame kb r c d).cpu.memory =
      ((c.memory.WriteByteAt (c.v c.getOpcode.X / 100) c.i).WriteByteAt
        ((c.v c.getOpcode.X / 10) % 10) ((c.i + 1) % 65536)).WriteByteAt
        ((c.v c.getOpcode.X % 100) % 10) ((c.i + 2) % 65536) := by
  simp only [frame, dispatch, hl, hk, dispatchF]
  simp [CPU.step2, tick_v, tick_i, tick_memory]

/-- C11: for every well-formed CPU state, register index `x` and `v = Vx`, the
BCD instruction `Fx33` writes `h = v / 100` at address `I`, `t = (v / 10) mod 10`
at `I+1` and `o = v mod 10` at `I+2` (addresses mod 2^16); `h`, `t`, `o` are
decimal digits with `100*h + 10*t + o = v`; no register, not `I`, and no other
memory cell changes. -/
theorem bcd_stores_digits (kb : Keyboard) (r : Nat) (c : CPU) (d : Display) (x : Nat)
    (hx : x < 16) (hwf : c.WF) (hop : c.getOpcode.word = 0xF033 + 256 * x) :
    (frame kb r c d).cpu.memory.cell c.i = c.v x / 100 ∧
    (frame kb r c d).cpu.memory.cell ((c.i + 1) % 65536) = (c.v x / 10) % 10 ∧
    (frame kb r c d).cpu.memory.cell ((c.i + 2) % 65536) = c.v x % 10 ∧
    c.v x / 100 ≤ 9 ∧ (c.v x / 10) % 10 ≤ 9 ∧ c.v x % 10 ≤ 9 ∧
    100 * (c.v x / 100) + 10 * ((c.v x / 10) % 10) + c.v x % 10 = c.v x ∧
    (frame kb r c d).cpu.v = c.v ∧ (frame kb r c d).cpu.i = c.i ∧
    (∀ a, a ≠ c.i → a ≠ (c.i + 1) % 65536 → a ≠ (c.i + 2) % 65536 →
      (frame kb r c d).cpu.memory.cell a = c.memory.cell a) := by
  obtain ⟨hl, hX, hK⟩ :=
    decode_xkk c.getOpcode 0xF x 0x33 (by omega) hx (by omega) (by omega)
  obtain ⟨hv, hi, hm⟩ := frame_bcd kb r c d hl hK
  rw [hX] at hm
  have hvx : c.v x < 256 := hwf.1 x hx
  have hI : c.i < 65536 := hwf.2.2.2.1
  rw [hm]
  simp only [Memory.WriteByteAt]
  refine ⟨?_, ?_, ?_, by omega, by omega, by omega, by omega, hv, hi, ?_⟩
  · rw [if_neg (by omega), if_neg (by omega), if_pos trivial]
  · rw [if_neg (by omega), if_pos trivial]
  · rw [if_pos trivial]; omega
  · intro a h0 h1 h2
    rw [if_neg h2, if_neg h1, if_neg h0]

/-- C11 witness: `V2 = 171` (`0xAB`) and `I = 0x300` give bytes `1, 7, 1` at
`0x300`, `0x301`, `0x302`. -/
theorem bcd_stores_digits_witness :
    (frame kb0 0 bcdState []).cpu.memory.cell 0x300 = 1 ∧
    (frame kb0 0 bcdState []).cpu.memory.cell 0x301 = 7 ∧
    (frame kb0 0 bcdState []).cpu.memory.cell 0x302 = 1 :=
  have h := bcd_stores_digits kb0 0 bcdState [] 2 (by decide) (by decide) (by decide)
  ⟨h.1, h.2.1, h.2.2.1⟩

/-! ## The shift instruction `8xy6` -/

/-- The register file after a frame that executes `8xy6`: the flag is stored
first, and the division reads `v[x]` after that store. -/
theorem frame_shift_v (kb : Keyboard) (r : Nat) (c : CPU) (d : Display)
    (hl : c.getOpcode.LeadByte = 8) (hn : c.getOpcode.N = 6) :
    (frame kb r c d).cpu.v =
      setAt (setAt c.v 0xF (c.v c.getOpcode.X &&& 0x01)) c.getOpcode.X
        (setAt c.v 0xF (c.v c.getOpcode.X &&& 0x01) c.getOpcode.X / 2) := by
  simp only [frame, dispatch, hl, hn, dispatch8, tick_v]
  simp [CPU.step2]

/-- C13 (amended): for every CPU state, every register index `x` in `0..14` and
every `y`, with `a = Vx` before the frame, `8xy6` leaves `V[0xF] = a AND 1` and
`Vx = a / 2`, so that `2 * Vx + V[0xF] = a` afterwards. -/
theorem shift_right_flag_and_dest (kb : Keyboard) (r : Nat) (c : CPU) (d : Display)
    (x y : Nat) (hx : x < 15) (hy : y < 16)
    (hop : c.getOpcode.word = 0x8006 + 256 * x + 16 * y) :
    (frame kb r c d).cpu.v 0xF = c.v x &&& 1 ∧
    (frame kb r c d).cpu.v x = c.v x / 2 ∧
    2 * (frame kb r c d).cpu.v x + (frame kb r c d).cpu.v 0xF = c.v x := by
  obtain ⟨hl, hX, -, hN, -, -⟩ :=
    decode_nibbles c.getOpcode 8 x y 6 (by omega) (by omega) hy (by omega) (by omega)
  rw [frame_shift_v kb r c d hl hN, hX]
  have hne : (15 : Nat) ≠ x := by omega
  have hne2 : x ≠ 15 := by omega
  simp only [setAt, hne, hne2, if_false, if_true]
  refine ⟨trivial, trivial, ?_⟩
  rw [Nat.and_one_is_mod]
  omega

/-- C13 witness: `V3 = 7`, opcode `8306` gives `VF = 1` and `V3 = 3`. -/
theorem shift_right_flag_and_dest_witness :
    (frame kb0 0 shiftPlain []).cpu.v 0xF = 7 &&& 1 ∧
      (frame kb0 0 shiftPlain []).cpu.v 3 = 7 / 2 :=
  have h := shift_right_flag_and_dest kb0 0 shiftPlain [] 3 0
    (by decide) (by decide) (by decide)
  ⟨h.1, h.2.1⟩

/-- C13 counterexample: with `x = 0xF` (opcode `8F06`, `VF = 3`) the frame leaves
`V[0xF] = 0`, while `3 AND 1 = 1` and `3 / 2 = 1`. -/
theorem shift_flag_counterexample :
    shiftFlag.WF ∧ shiftFlag.getOpcode.word = 0x8006 + 256 * 0xF + 16 * 0 ∧
      shiftFlag.v 0xF = 3 ∧ (frame kb0 0 shiftFlag []).cpu.v 0xF = 0 ∧
      (frame kb0 0 shiftFlag []).cpu.v 0xF ≠ shiftFlag.v 0xF &&& 1 ∧
      (frame kb0 0 shiftFlag []).cpu.v 0xF ≠ shiftFlag.v 0xF / 2 := by
  decide

/-! ## The add-immediate instruction `7xkk` -/

/-- C16: for every CPU state, register index `x` and immediate `KK`, `7xkk`
sets `Vx` to `(Vx + KK) mod 256` and sets no flag: every other register,
including `V[0xF]` when `x != 0xF`, is unchanged, as are `I`, the stack and the
stack pointer. -/
theorem add_immediate_effect (kb : Keyboard) (r : Nat) (c : CPU) (d : Display)
    (x kk : Nat) (hx : x < 16) (hkk : kk < 256)
    (hop : c.getOpcode.word = 0x7000 + 256 * x + kk) :
    (frame kb r c d).cpu.v x = (c.v x + kk) % 256 ∧
    (∀ j, j ≠ x → (frame kb r c d).cpu.v j = c.v j) ∧
    (x ≠ 0xF → (frame kb r c d).cpu.v 0xF = c.v 0xF) ∧
    (frame kb r c d).cpu.i = c.i ∧ (frame kb r c d).cpu.stack = c.stack ∧
    (frame kb r c d).cpu.sp = c.sp := by
  obtain ⟨hl, hX, hK⟩ := decode_xkk c.getOpcode 7 x kk (by omega) hx hkk (by omega)
  have hv : (frame kb r c d).cpu.v = setAt c.v x ((c.v x + kk) % 256) := by
    simp only [frame, dispatch, hl, hX, hK, tick_v]
    simp [CPU.step2]
  have hrest : (frame kb r c d).cpu.i = c.i ∧ (frame kb r c d).cpu.stack = c.stack ∧
      (frame kb r c d).cpu.sp = c.sp := by
    simp only [frame, dispatch, hl]
    simp [CPU.step2, tick_i, tick_stack, tick_sp]
  rw [hv]
  refine ⟨by simp [setAt], fun j hj => by simp [setAt, hj], fun h => ?_, hrest⟩
  have : (15 : Nat) ≠ x := fun e => h e.symm
  simp [setAt, this]

/-- C16 witness: `V1 = 0xFF`, `KK = 0x02`, `VF = 9`: `7102` gives `V1 = 1`, `VF = 9`. -/
theorem add_immediate_effect_witness :
    (frame kb0 0 addImm []).cpu.v 1 = 1 ∧ (frame kb0 0 addImm []).cpu.v 0xF = 9 :=
  have h := add_immediate_effect kb0 0 addImm [] 1 2 (by decide) (by decide) (by decide)
  ⟨h.1, h.2.2.1 (by decide)⟩

/-! ## The load instruction `Fx65` -/

/-- Replacing the register file by an equal one gives an equal CPU. -/
theorem CPU.with_v_congr (c : CPU) (f g : Nat → Nat) (h : ∀ j, f j = g j) :
    { c with v := f } = { c with v := g } := by
  have : f = g := funext h
  rw [this]

/-- Closed form of the loop of `Fx65` once the fuel covers the remaining
iterations: registers `i..x` are loaded, nothing else changes. -/
theorem loadLoop_eq (x : Nat) (hx : x < 65535) (fuel i : Nat) (c : CPU)
    (hf : x + 1 ≤ fuel + i) :
    loadLoop x fuel i c =
      { c with v := fun j =>
          if i ≤ j ∧ j ≤ x then c.memory.ReadByteAt ((c.i + j) % 65536) else c.v j } := by
  induction fuel generalizing i c with
  | zero =>
    simp only [loadLoop]
    exact CPU.with_v_congr c c.v _ (fun j => by rw [if_neg (by omega)])
  | succ n ih =>
    simp only [loadLoop]
    split_ifs with hi
    · have hi1 : (i + 1) % 65536 = i + 1 := Nat.mod_eq_of_lt (by omega)
      rw [hi1, ih (i + 1) _ (by omega)]
      refine CPU.with_v_congr c _ _ (fun j => ?_)
      simp only [setAt]
      by_cases hj : j = i
      · subst hj
        rw [if_neg (by omega), if_pos rfl, if_pos ⟨le_refl _, hi⟩]
      · by_cases hr : i + 1 ≤ j ∧ j ≤ x
        · rw [if_pos hr, if_pos ⟨by omega, hr.2⟩]
        · rw [if_neg hr, if_neg hj, if_neg (by omega)]
    · exact CPU.with_v_congr c c.v _ (fun j => by rw [if_neg (by omega)])

/-- Closed form of the reads of the loop of `Fx65`: one per index `i..x`. -/
theorem loadReads_eq (x : Nat) (hx : x < 65535) (fuel i : Nat) (c : CPU)
    (hf : x + 1 ≤ fuel + i) :
    loadReads x fuel i c =
      (List.range' i (x + 1 - i)).map (fun j => (c.i + j) % 65536) := by
  induction fuel generalizing i c with
  | zero =>
    have : x + 1 - i = 0 := by omega
    simp [loadReads, this]
  | succ n ih =>
    simp only [loadReads]
    split_ifs with hi
    · have hi1 : (i + 1) % 65536 = i + 1 := Nat.mod_eq_of_lt (by omega)
      have hlen : x + 1 - i = (x + 1 - (i + 1)) + 1 := by omega
      rw [hi1, ih (i + 1) _ (by omega), hlen, List.range'_succ]
      simp
    · have : x + 1 - i = 0 := by omega
      simp [this]

/-- C12: for every CPU state and every register index `x` in `0..15`, `Fx65`
sets `V[j]` to the memory byte at `(I + j) mod 2^16` for every `j <= x`, leaves
`V[j]` unchanged for `j > x`, leaves `I` and memory unchanged, and its loop
makes exactly `x + 1` reads and then exits by its own condition (more loop
fuel changes nothing). -/
theorem load_registers (kb : Keyboard) (r : Nat) (c : CPU) (d : Display) (x : Nat)
    (hx : x < 16) (hop : c.getOpcode.word = 0xF065 + 256 * x) :
    (∀ j, j ≤ x → (frame kb r c d).cpu.v j = c.memory.ReadByteAt ((c.i + j) % 65536)) ∧
    (∀ j, x < j → (frame kb r c d).cpu.v j = c.v j) ∧
    (frame kb r c d).cpu.i = c.i ∧ (frame kb r c d).cpu.memory = c.memory ∧
    (frame kb r c d).cpu = (loadLoop x 17 0 (tick c)).step2 ∧
    loadReads x 17 0 (tick c) = (List.range (x + 1)).map (fun j => (c.i + j) % 65536) ∧
    (loadReads x 17 0 (tick c)).length = x + 1 ∧
    (∀ fuel, x + 1 ≤ fuel →
      loadLoop x fuel 0 (tick c) = loadLoop x 17 0 (tick c) ∧
      loadReads x fuel 0 (tick c) = loadReads x 17 0 (tick c)) := by
  obtain ⟨hl, hX, hK⟩ :=
    decode_xkk c.getOpcode 0xF x 0x65 (by omega) hx (by omega) (by omega)
  have hf : (frame kb r c d).cpu = (loadLoop x 17 0 (tick c)).step2 := by
    simp only [frame, dispatch, hl, hK, hX, dispatchF]
    simp
  have hloop := loadLoop_eq x (by omega) 17 0 (tick c) (by omega)
  have hreads : loadReads x 17 0 (tick c) =
      (List.range (x + 1)).map (fun j => (c.i + j) % 65536) := by
    rw [loadReads_eq x (by omega) 17 0 (tick c) (by omega), List.range_eq_range', tick_i]
    simp
  refine ⟨fun j hj => ?_, fun j hj => ?_, ?_, ?_, hf, hreads, ?_, fun fuel hfuel => ⟨?_, ?_⟩⟩
  · rw [hf, hloop]
    simp [CPU.step2, hj, tick_memory, tick_i]
  · rw [hf, hloop]
    have : ¬ j ≤ x := by omega
    simp [CPU.step2, this, tick_v]
  · rw [hf, hloop]
    simp [CPU.step2, tick_i]
  · rw [hf, hloop]
    simp [CPU.step2, tick_memory]
  · rw [hreads]; simp
  · rw [hloop, loadLoop_eq x (by omega) fuel 0 (tick c) (by omega)]
  · rw [loadReads_eq x (by omega) fuel 0 (tick c) (by omega),
      loadReads_eq x (by omega) 17 0 (tick c) (by omega)]

/-- C12 witness: `F265` with `I = 0x300` over a memory holding `(a + 5) mod 256`
at `a` loads `V0..V2` from `0x300..0x302`, keeps `V3 = 9`, and reads three
addresses. -/
theorem load_registers_witness :
    (frame kb0 0 loadState []).cpu.v 2 = 7 ∧
    (frame kb0 0 loadState []).cpu.v 3 = 9 ∧
    loadReads 2 17 0 (tick loadState) = [0x300, 0x301, 0x302] :=
  have h := load_registers kb0 0 loadState [] 2 (by decide) (by decide)
  ⟨(h.1 2 (by decide)).trans (by decide), (h.2.1 3 (by decide)).trans (by decide),
    h.2.2.2.2.2.1.trans (by decide)⟩

/-! ## Program counter of the plain instructions -/

/-- The supported arms of family `0x8` complete and advance `pc` by 2. -/
theorem dispatch8_pc (op : Opcode) (c : CPU) (d : Display) (hn : op.N ≤ 6) :
    (dispatch8 op c d).status = .running ∧
    (dispatch8 op c d).cpu.pc = (c.pc + 2) % 65536 := by
  simp only [dispatch8]
  split_ifs <;> first | omega | simp [CPU.step2]

/-- The supported arms of family `0xF` complete and advance `pc` by 2. -/
theorem dispatchF_pc (op : Opcode) (c : CPU) (d : Display)
    (hk : op.KK = 0x07 ∨ op.KK = 0x15 ∨ op.KK = 0x18 ∨ op.KK = 0x29 ∨ op.KK = 0x33 ∨
      op.KK = 0x65) :
    (dispatchF op c d).status = .running ∧
    (dispatchF op c d).cpu.pc = (c.pc + 2) % 65536 := by
  simp only [dispatchF]
  split_ifs <;> first | omega | simp [CPU.step2, loadLoop_fields]

/-- C14: for every CPU state and every supported instruction that is neither a
skip nor a control-flow instruction (`6xkk`, `7xkk`, `8xy0..8xy6`, `Annn`, `Cxkk`,
`Dxyn`, `Fx07`, `Fx15`, `Fx18`, `Fx29`, `Fx33`, `Fx65`), one frame completes, sets
`pc` to exactly `(pc + 2) mod 2^16`, and leaves the stack and the stack pointer
unchanged. -/
theorem plain_instruction_advances_pc (kb : Keyboard) (r : Nat) (c : CPU) (d : Display)
    (h : c.getOpcode.LeadByte = 0x6 ∨ c.getOpcode.LeadByte = 0x7 ∨
      (c.getOpcode.LeadByte = 0x8 ∧ c.getOpcode.N ≤ 6) ∨
      c.getOpcode.LeadByte = 0xA ∨ c.getOpcode.LeadByte = 0xC ∨
      c.getOpcode.LeadByte = 0xD ∨
      (c.getOpcode.LeadByte = 0xF ∧
        (c.getOpcode.KK = 0x07 ∨ c.getOpcode.KK = 0x15 ∨ c.getOpcode.KK = 0x18 ∨
          c.getOpcode.KK = 0x29 ∨ c.getOpcode.KK = 0x33 ∨ c.getOpcode.KK = 0x65))) :
    (frame kb r c d).status = .running ∧
    (frame kb r c d).cpu.pc = (c.pc + 2) % 65536 ∧
    (frame kb r c d).cpu.stack = c.stack ∧
    (frame kb r c d).cpu.sp = c.sp := by
  rcases h with h | h | ⟨h, hn⟩ | h | h | h | ⟨h, hk⟩
  · simp only [frame, dispatch, h]
    simp [CPU.step2, tick_pc, tick_stack, tick_sp]
  · simp only [frame, dispatch, h]
    simp [CPU.step2, tick_pc, tick_stack, tick_sp]
  · simp only [frame, dispatch, h]
    simp [dispatch8_pc _ _ _ hn, dispatch8_fields, tick_pc, tick_stack, tick_sp]
  · simp only [frame, dispatch, h]
    simp [CPU.step2, tick_pc, tick_stack, tick_sp]
  · simp only [frame, dispatch, h]
    simp [CPU.step2, tick_pc, tick_stack, tick_sp]
  · simp only [frame, dispatch, h]
    simp [CPU.step2, tick_pc, tick_stack, tick_sp]
  · simp only [frame, dispatch, h]
    simp [dispatchF_pc _ _ _ hk, dispatchF_fields, tick_pc, tick_stack, tick_sp]

/-- C14 witness: `A123` at `pc = 0x200`, `sp = 2` gives `pc = 0x202`, `sp = 2` and
the same stack entry. -/
theorem plain_instruction_advances_pc_witness :
    (frame kb0 0 setIndex []).status = .running ∧
    (frame kb0 0 setIndex []).cpu.pc = 0x202 ∧
    (frame kb0 0 setIndex []).cpu.stack 2 = 0x250 ∧
    (frame kb0 0 setIndex []).cpu.sp = 2 :=
  have h := plain_instruction_advances_pc kb0 0 setIndex []
    (Or.inr (Or.inr (Or.inr (Or.inl (by decide)))))
  ⟨h.1, h.2.1, (congrFun h.2.2.1 2).trans (by decide), h.2.2.2⟩

/-! ## State after an unsupported instruction -/

/-- When family `0x8` ends the run it has not touched the CPU or the display. -/
theorem dispatch8_returned (op : Opcode) (c : CPU) (d : Display)
    (h : (dispatch8 op c d).status = .returned) :
    (dispatch8 op c d).cpu = c ∧ (dispatch8 op c d).display = d := by
  revert h
  simp only [dispatch8]
  split_ifs <;> simp

/-- Family `0xE` never ends the run. -/
theorem dispatchE_not_returned (kb : Keyboard) (op : Opcode) (c : CPU) (d : Display) :
    (dispatchE kb op c d).status ≠ .returned := by
  simp only [dispatchE]
  split_ifs <;> simp

/-- When family `0xF` ends the run it has not touched the CPU or the display. -/
theorem dispatchF_returned (op : Opcode) (c : CPU) (d : Display)
    (h : (dispatchF op c d).status = .returned) :
    (dispatchF op c d).cpu = c ∧ (dispatchF op c d).display = d := by
  revert h
  simp only [dispatchF]
  split_ifs <;> simp

/-- A frame that ends the run leaves the CPU as the timer step left it. -/
theorem frame_returned (kb : Keyboard) (r : Nat) (c : CPU) (d : Display)
    (h : (frame kb r c d).status = .returned) :
    (frame kb r c d).cpu = tick c ∧ (frame kb r c d).display = d := by
  have hlt := LeadByte_lt c.getOpcode
  revert h
  unfold frame
  generalize c.getOpcode = op at hlt ⊢
  generalize hl : op.LeadByte = l at hlt
  interval_cases l
  case «8» =>
    simp only [dispatch, hl]
    simpa using dispatch8_returned op (tick c) d
  case «14» =>
    simp only [dispatch, hl]
    simpa using fun h => absurd h (dispatchE_not_returned kb op (tick c) d)
  case «15» =>
    simp only [dispatch, hl]
    simpa using dispatchF_returned op (tick c) d
  all_goals
    simp [dispatch, hl] <;> split_ifs <;> simp

/-- C15: when a frame fetches an unsupported instruction and the run ends,
every register `V0..VF`, the program counter, the index register, the stack,
the stack pointer and memory are exactly as before the frame; only the delay
and sound timers carry the frame's timer step. -/
theorem unsupported_keeps_state (kb : Keyboard) (r : Nat) (c : CPU) (d : Display)
    (h : (frame kb r c d).status = .returned) :
    (frame kb r c d).cpu.v = c.v ∧ (frame kb r c d).cpu.pc = c.pc ∧
    (frame kb r c d).cpu.i = c.i ∧ (frame kb r c d).cpu.stack = c.stack ∧
    (frame kb r c d).cpu.sp = c.sp ∧ (frame kb r c d).cpu.memory = c.memory ∧
    (frame kb r c d).cpu.dt = c.dt - 1 ∧ (frame kb r c d).cpu.st = c.st - 1 ∧
    (frame kb r c d).display = d := by
  obtain ⟨hc, hd⟩ := frame_returned kb r c d h
  rw [hc]
  exact ⟨tick_v c, tick_pc c, tick_i c, tick_stack c, tick_sp c, tick_memory c,
    tick_dt c, tick_st c, hd⟩

/-- C15 witness: fetching `5120` with `V1 = 7`, `dt = 4` ends the run with
`V1 = 7`, `pc = 0x200` and `dt = 3`. -/
theorem unsupported_keeps_state_witness :
    (frame kb0 0 unknownFamily []).status = .returned ∧
    (frame kb0 0 unknownFamily []).cpu.v 1 = 7 ∧
    (frame kb0 0 unknownFamily []).cpu.pc = 0x200 ∧
    (frame kb0 0 unknownFamily []).cpu.dt = 3 :=
  have h := unsupported_keeps_state kb0 0 unknownFamily [] (by decide)
  ⟨by decide, (congrFun h.1 1).trans (by decide), h.2.1.trans (by decide),
    h.2.2.2.2.2.2.1.trans (by decide)⟩

/-! ## The state built by `NewCPU` -/

/-- Writing sprites of 5 bytes from index `i` on leaves the cells from
`5 * (i + l.length)` on alone. -/
theorem writeSprites_above (l : List (List Nat)) (i : Nat) (m : Memory) (a : Nat)
    (hs : ∀ s ∈ l, s.length = 5) (ha : 5 * (i + l.length) ≤ a) :
    (writeSprites l i m).cell a = m.cell a := by
  induction l generalizing i m with
  | nil => rfl
  | cons s rest ih =>
    have hlen : s.length = 5 := hs s (List.mem_cons_self _ _)
    simp only [List.length_cons] at ha
    simp only [writeSprites]
    rw [ih (i + 1) _ (fun t ht => hs t (List.mem_cons_of_mem _ ht)) (by omega)]
    simp only [Memory.WriteBytesAt, hlen]
    rw [if_neg (by omega)]

/-- C17: the state returned by `NewCPU` (for a font table of 16 glyphs of 5
bytes) has all registers, all stack entries, the stack pointer, both timers
and the index register equal to 0 and `pc = 0x200`; its memory holds byte `k`
of glyph `g` at `g * 5 + k` for `g` in `0..15`, `k` in `0..4`, and 0 from address
80 on, so the font fills exactly `0..79`; `LoadRom` writes from `0x200` on and
leaves every cell below it, the font included, as it was. -/
theorem newCPU_initial_state (sprites : List (List Nat))
    (hlen : sprites.length = 16) (hs : ∀ s ∈ sprites, s.length = 5) :
    (∀ j, (NewCPU sprites).v j = 0) ∧ (∀ j, (NewCPU sprites).stack j = 0) ∧
    (NewCPU sprites).sp = 0 ∧ (NewCPU sprites).dt = 0 ∧ (NewCPU sprites).st = 0 ∧
    (NewCPU sprites).i = 0 ∧ (NewCPU sprites).pc = 0x200 ∧
    (∀ g k, g < 16 → k < 5 →
      (NewCPU sprites).memory.cell (g * 5 + k) = (sprites.getD g []).getD k 0) ∧
    (∀ a, a < 80 →
      (NewCPU sprites).memory.cell a = (sprites.getD (a / 5) []).getD (a % 5) 0) ∧
    (∀ a, 80 ≤ a → (NewCPU sprites).memory.cell a = 0) ∧
    (∀ rom a, a < 0x200 →
      ((NewCPU sprites).LoadRom rom).memory.cell a = (NewCPU sprites).memory.cell a) := by
  have hglyph : ∀ g k, g < 16 → k < 5 →
      (NewCPU sprites).memory.cell (g * 5 + k) = (sprites.getD g []).getD k 0 := by
    intro g k hg hk
    have := writeSprites_cell sprites 0 ⟨fun _ => 0⟩ g k hs (by omega) hk
    simpa [NewCPU] using this
  refine ⟨fun _ => rfl, fun _ => rfl, rfl, rfl, rfl, rfl, rfl, hglyph, ?_, ?_, ?_⟩
  · intro a ha
    have h := hglyph (a / 5) (a % 5) (by omega) (Nat.mod_lt _ (by decide))
    have e : a / 5 * 5 + a % 5 = a := by omega
    rw [e] at h
    exact h
  · intro a ha
    have := writeSprites_above sprites 0 ⟨fun _ => 0⟩ a hs (by omega)
    simpa [NewCPU] using this
  · intro rom a ha
    simp only [CPU.LoadRom, Memory.WriteBytesAt]
    rw [if_neg (by omega)]

/-- C17 witness: with `demoFont`, byte 2 of glyph `0xA` sits at address 52,
address 80 holds 0, and loading a ROM keeps the byte at 52. -/
theorem newCPU_initial_state_witness :
    (NewCPU demoFont).pc = 0x200 ∧
    (NewCPU demoFont).memory.cell (0xA * 5 + 2) = 0xA + 32 ∧
    (NewCPU demoFont).memory.cell 80 = 0 ∧
    ((NewCPU demoFont).LoadRom [1, 2, 3]).memory.cell 52 = (NewCPU demoFont).memory.cell 52 :=
  have h := newCPU_initial_state demoFont (by decide) (by decide)
  ⟨h.2.2.2.2.2.2.1, (h.2.2.2.2.2.2.2.1 0xA 2 (by decide) (by decide)).trans (by decide),
    h.2.2.2.2.2.2.2.2.2.1 80 (by decide), h.2.2.2.2.2.2.2.2.2.2 [1, 2, 3] 52 (by decide)⟩

/-! ## Reading the delay timer: `Fx07` after `Fx15` -/

/-- Register file and delay timer after a frame that executes `Fx07`. -/
theorem frame_read_timer (kb : Keyboard) (r : Nat) (c : CPU) (d : Display)
    (hl : c.getOpcode.LeadByte = 0xF) (hk : c.getOpcode.KK = 0x07) :
    (frame kb r c d).cpu.v = setAt c.v c.getOpcode.X (c.dt - 1) := by
  simp only [frame, dispatch, hl, hk, dispatchF]
  simp [CPU.step2, tick_v, tick_dt]

/-- Delay timer after a frame that executes `Fx15`. -/
theorem frame_set_timer (kb : Keyboard) (r : Nat) (c : CPU) (d : Display)
    (hl : c.getOpcode.LeadByte = 0xF) (hk : c.getOpcode.KK = 0x15) :
    (frame kb r c d).cpu.dt = c.v c.getOpcode.X := by
  simp only [frame, dispatch, hl, hk, dispatchF]
  simp [CPU.step2, tick_v]

/-- C18: the timer step runs before dispatch, so `Fx07` stores in `Vx` the delay
timer after this frame's decrement (`dt − 1` when `dt > 0`, else 0), which for
`dt > 0` is not the value at the start of the frame; hence `Fx15` with `Vx = v`
in one frame and `Fy07` in the next yields `Vy = v − 1` for `v > 0` and `Vy = 0`
for `v = 0`. -/
theorem read_timer_sees_decrement (kb kb2 : Keyboard) (r r2 : Nat) (c : CPU) (d : Display)
    (x y : Nat) (hx : x < 16) (hy : y < 16) :
    (c.getOpcode.word = 0xF007 + 256 * x →
      (frame kb r c d).cpu.v x = (if c.dt > 0 then c.dt - 1 else 0) ∧
      (c.dt > 0 → (frame kb r c d).cpu.v x ≠ c.dt)) ∧
    (c.getOpcode.word = 0xF015 + 256 * x →
      (frame kb r c d).cpu.getOpcode.word = 0xF007 + 256 * y →
      (frame kb2 r2 (frame kb r c d).cpu (frame kb r c d).display).cpu.v y
        = (if c.v x > 0 then c.v x - 1 else 0)) := by
  have hread : ∀ (k : Keyboard) (q : Nat) (s : CPU) (e : Display) (z : Nat), z < 16 →
      s.getOpcode.word = 0xF007 + 256 * z → (frame k q s e).cpu.v z = s.dt - 1 := by
    intro k q s e z hz hop
    obtain ⟨hl, hX, hK⟩ :=
      decode_xkk s.getOpcode 0xF z 0x07 (by omega) hz (by omega) (by omega)
    rw [frame_read_timer k q s e hl hK, hX]
    simp [setAt]
  refine ⟨fun hop => ?_, fun hset hnext => ?_⟩
  · rw [hread kb r c d x hx hop]
    refine ⟨by split_ifs <;> omega, fun h => by omega⟩
  · obtain ⟨hl, hX, hK⟩ :=
      decode_xkk c.getOpcode 0xF x 0x15 (by omega) hx (by omega) (by omega)
    rw [hread kb2 r2 _ _ y hy hnext, frame_set_timer kb r c d hl hK, hX]
    split_ifs <;> omega

/-- C18 witness: `F115` with `V1 = 5` and then `F207` give `V2 = 4`. -/
theorem read_timer_sees_decrement_witness :
    (frame kb0 0 (frame kb0 0 timerSetThenRead []).cpu
      (frame kb0 0 timerSetThenRead []).display).cpu.v 2 = 4 :=
  ((read_timer_sees_decrement kb0 kb0 0 0 timerSetThenRead [] 1 2 (by decide)
    (by decide)).2 (by decide) (by decide)).trans (by decide)

/-! ## The draw instruction `Dxyn` -/

/-- C19: for every CPU state, register indices `x`, `y` and count `N` in `0..15`,
`Dxyn` hands the display exactly one sprite of `N` bytes, the memory contents at
`I, I+1, .., I+N−1`, at position `(Vx, Vy)`, and changes nothing in the CPU but
`pc` (and the timers' step): all sixteen registers including `V[0xF]`, the
index register, the stack, the stack pointer and memory are unchanged. -/
theorem draw_effect (kb : Keyboard) (r : Nat) (c : CPU) (d : Display) (x y n : Nat)
    (hx : x < 16) (hy : y < 16) (hn : n < 16)
    (hop : c.getOpcode.word = 0xD000 + 256 * x + 16 * y + n) :
    (frame kb r c d).status = .running ∧
    (frame kb r c d).display =
      d ++ [⟨c.v x, c.v y, (List.range n).map (fun k => c.memory.cell (c.i + k))⟩] ∧
    ((List.range n).map (fun k => c.memory.cell (c.i + k))).length = n ∧
    (frame kb r c d).cpu.v = c.v ∧ (frame kb r c d).cpu.i = c.i ∧
    (frame kb r c d).cpu.stack = c.stack ∧ (frame kb r c d).cpu.sp = c.sp ∧
    (frame kb r c d).cpu.memory = c.memory ∧
    (frame kb r c d).cpu.pc = (c.pc + 2) % 65536 := by
  obtain ⟨hl, hX, hY, hN, -, -⟩ :=
    decode_nibbles c.getOpcode 0xD x y n (by omega) hx hy hn (by omega)
  simp only [frame, dispatch, hl, hX, hY, hN]
  simp [CPU.step2, Memory.ReadBytesAt, tick_v, tick_i, tick_stack, tick_sp, tick_memory,
    tick_pc]

/-- C19 witness: `D123` with `V1 = 10`, `V2 = 20`, `I = 0x300` draws the three
bytes at `0x300..0x302` at `(10, 20)` and keeps `VF = 1`. -/
theorem draw_effect_witness :
    (frame kb0 0 drawState []).display = [⟨10, 20, [5, 6, 7]⟩] ∧
    (frame kb0 0 drawState []).cpu.v 0xF = 1 :=
  have h := draw_effect kb0 0 drawState [] 1 2 3 (by decide) (by decide) (by decide)
    (by decide)
  ⟨h.2.1.trans (by decide), (congrFun h.2.2.2.1 0xF).trans (by decide)⟩

/-! ## The random instruction `Cxkk` -/

/-- C20: for every CPU state, register index `x`, immediate `KK` and every value
`r` that `rand.Intn(255)` can return (`0 <= r <= 254`), `Cxkk` sets `Vx = r AND KK`,
so `Vx AND KK = Vx`; as `r` is never 255, with `KK = 0xFF` the result is `r` itself
and never `0xFF`. -/
theorem random_masks_value (kb : Keyboard) (r : Nat) (c : CPU) (d : Display) (x kk : Nat)
    (hx : x < 16) (hkk : kk < 256) (hr : r ≤ 254)
    (hop : c.getOpcode.word = 0xC000 + 256 * x + kk) :
    (frame kb r c d).cpu.v x = r &&& kk ∧
    (frame kb r c d).cpu.v x &&& kk = (frame kb r c d).cpu.v x ∧
    (kk = 0xFF → (frame kb r c d).cpu.v x = r ∧ (frame kb r c d).cpu.v x ≠ 0xFF) := by
  obtain ⟨hl, hX, hK⟩ := decode_xkk c.getOpcode 0xC x kk (by omega) hx hkk (by omega)
  have hv : (frame kb r c d).cpu.v x = r &&& kk := by
    simp only [frame, dispatch, hl, hX, hK, tick_v]
    have hmod : r % 256 = r := Nat.mod_eq_of_lt (by omega)
    simp [CPU.step2, setAt, hmod]
  refine ⟨hv, ?_, fun h => ?_⟩
  · rw [hv, Nat.and_assoc, Nat.and_self]
  · have h255 : r &&& 255 = r := by
      have := Nat.and_pow_two_sub_one_eq_mod r 8
      rw [Nat.mod_eq_of_lt (by omega)] at this
      exact this
    rw [hv, h, h255]
    exact ⟨rfl, by omega⟩

/-- C20 witness: `C0FF` with `r = 254` gives `V0 = 254`, which is not `0xFF`. -/
theorem random_masks_value_witness :
    (frame kb0 254 randomAll []).cpu.v 0 = 254 ∧
      (frame kb0 254 randomAll []).cpu.v 0 ≠ 0xFF :=
  (random_masks_value kb0 254 randomAll [] 0 0xFF (by decide) (by decide) (by decide)
    (by decide)).2.2 rfl

end Chip8
